import Mathlib

set_option maxRecDepth 4000

/-!
Shallow embedding of the document-ingestion-and-generation pipeline of the
job-application-assistant repository (src/components/resume_parser.py,
cover_letter_generator.py, company_researcher.py, airtable_tracker.py).

Python strings are modelled as Lean `String`; the Python string methods the
code uses (`strip`, `lower`, `title`, `startswith`, `in`, `split`) are
implemented below on `List Char`, restricted to the ASCII behaviour the
repository relies on.
-/

/-- The whitespace characters removed by Python `str.strip()` (ASCII part). -/
def isPyWs (c : Char) : Bool :=
  c == ' ' || c == '\t' || c == '\n' || c == '\r' || c == '\x0b' || c == '\x0c'

/-- Drop the longest run of elements satisfying `p` from the right end. -/
def dropRightWhile (p : α → Bool) (l : List α) : List α :=
  (l.reverse.dropWhile p).reverse

/-- Python `str.strip()` on the character list. -/
def stripList (l : List Char) : List Char :=
  dropRightWhile isPyWs (l.dropWhile isPyWs)

/-- Python `str.strip()`. -/
def pyStrip (s : String) : String := ⟨stripList s.data⟩

/-- Python `str.lower()` (ASCII). -/
def pyLower (s : String) : String := ⟨s.data.map Char.toLower⟩

/-- Python `s.startswith(t)`. -/
def pyStartsWith (s t : String) : Bool := t.data.isPrefixOf s.data

/-- Contiguous-sublist test on character lists (Python `t in s`). -/
def listIfx (n : List Char) : List Char → Bool
  | [] => n.isEmpty
  | c :: rest => n.isPrefixOf (c :: rest) || listIfx n rest

/-- Python substring containment `needle in hay`. -/
def substrB (needle hay : String) : Bool := listIfx needle.data hay.data

/-- Python `str.split(sep)` for a one-character separator (never an empty list). -/
def splitOnChar (sep : Char) : List Char → List (List Char)
  | [] => [[]]
  | c :: rest =>
    match splitOnChar sep rest with
    | [] => [[c]]
    | h :: t => if c == sep then [] :: h :: t else (c :: h) :: t

/-- Python `text.split(c)` at the `String` level. -/
def pySplit (sep : Char) (s : String) : List String :=
  (splitOnChar sep s.data).map (fun l => ⟨l⟩)

/-- Python `str.title()` (ASCII): a letter following a non-letter is uppercased,
a letter following a letter is lowercased. -/
def pyTitleAux : Bool → List Char → List Char
  | _, [] => []
  | prevAlpha, c :: rest =>
    (if prevAlpha then c.toLower else c.toUpper) :: pyTitleAux c.isAlpha rest

/-- Python `str.title()`. -/
def pyTitle (s : String) : String := ⟨pyTitleAux false s.data⟩

/-! ### Basic lemmas about the string primitives -/

theorem listIfx_true_iff (n : List Char) :
    ∀ h : List Char, listIfx n h = true ↔ n <:+: h := by
  intro h
  induction h with
  | nil =>
    simp [listIfx, List.isEmpty_iff]
  | cons c rest ih =>
    simp only [listIfx, Bool.or_eq_true, List.isPrefixOf_iff_prefix, ih]
    exact List.infix_cons_iff.symm

theorem substrB_iff (needle hay : String) :
    substrB needle hay = true ↔ needle.data <:+: hay.data :=
  listIfx_true_iff needle.data hay.data

theorem pyStartsWith_iff (s t : String) :
    pyStartsWith s t = true ↔ t.data <+: s.data := by
  simp [pyStartsWith, List.isPrefixOf_iff_prefix]

/-! ### Bullet Selector (cover_letter_generator.py, `extract_resume_bullets`):
the post-parse of the generation response. -/

/-- A line qualifies when (after stripping) it starts with one of the three
bullet markers, exactly as in the `if line.startswith(...)` test. -/
def isBulletLine (l : String) : Bool :=
  pyStartsWith l "•" || pyStartsWith l "-" || pyStartsWith l "*"

/-- The response-parsing loop of `extract_resume_bullets`: scan each line of
the generation response, strip it, and keep the bullet-marked ones. -/
def extract_resume_bullets (content : String) : List String :=
  (pySplit '\n' content).foldl
    (fun bullets line =>
      let l := pyStrip line
      if isBulletLine l then bullets ++ [l] else bullets)
    []

theorem extract_resume_bullets_foldl (lines : List String) :
    ∀ acc : List String,
      lines.foldl
        (fun bullets line =>
          let l := pyStrip line
          if isBulletLine l then bullets ++ [l] else bullets)
        acc
      = acc ++ (lines.map pyStrip).filter isBulletLine := by
  induction lines with
  | nil => intro acc; simp
  | cons x xs ih =>
    intro acc
    simp only [List.foldl_cons, List.map_cons, List.filter_cons]
    by_cases h : isBulletLine (pyStrip x) = true
    · simp only [h, if_pos, ih]
      simp
    · simp only [Bool.not_eq_true] at h
      simp [h, ih]

/-- Claim C5: `select_bullets` returns exactly the stripped lines whose first
non-whitespace character is a bullet marker (`•`, `-`, `*`), in order of
appearance with no de-duplication; zero qualifying lines give the empty list;
on the three-line example it returns exactly the two bullet lines. -/
theorem extract_resume_bullets_spec :
    (∀ content : String,
      extract_resume_bullets content
        = ((pySplit '\n' content).map pyStrip).filter isBulletLine)
    ∧ extract_resume_bullets "• Led X\nrandom prose\n- Built Y"
        = ["• Led X", "- Built Y"]
    ∧ extract_resume_bullets "no bullets here\njust prose" = [] := by
  refine ⟨fun content => ?_, by decide, by decide⟩
  unfold extract_resume_bullets
  simpa using extract_resume_bullets_foldl (pySplit '\n' content) []

/-! ### Skill Extractor (resume_parser.py, `extract_skills_keywords`). -/

/-- The fixed skill vocabulary of `extract_skills_keywords`. -/
def common_skills : List String :=
  ["python", "java", "javascript", "react", "node.js", "sql", "mysql",
   "postgresql", "mongodb", "aws", "azure", "docker", "kubernetes", "git",
   "html", "css", "machine learning", "data science", "tensorflow", "pytorch",
   "pandas", "numpy", "api", "rest", "graphql", "agile", "scrum", "ci/cd",
   "devops", "linux", "project management", "leadership", "communication",
   "problem solving"]

/-- Model of `extract_skills_keywords`: lowercase the text once, then keep the
title-cased form of every vocabulary skill contained in it. -/
def extract_skills_keywords (resume_text : String) : List String :=
  let resume_lower := pyLower resume_text
  common_skills.foldl
    (fun found_skills skill =>
      if substrB skill resume_lower then found_skills ++ [pyTitle skill]
      else found_skills)
    []

theorem extract_skills_foldl (vocab : List String) (low : String) :
    ∀ acc : List String,
      vocab.foldl
        (fun found_skills skill =>
          if substrB skill low then found_skills ++ [pyTitle skill]
          else found_skills)
        acc
      = acc ++ (vocab.filter (fun s => substrB s low)).map pyTitle := by
  induction vocab with
  | nil => intro acc; simp
  | cons x xs ih =>
    intro acc
    simp only [List.foldl_cons, List.filter_cons]
    by_cases h : substrB x low = true
    · simp [h, ih]
    · simp only [Bool.not_eq_true] at h
      simp [h, ih]

theorem extract_skills_eq (resume_text : String) :
    extract_skills_keywords resume_text
      = (common_skills.filter
          (fun s => substrB s (pyLower resume_text))).map pyTitle := by
  unfold extract_skills_keywords
  simpa using extract_skills_foldl common_skills (pyLower resume_text) []

/-- Claim C6: `extract_skills` returns the title-cased forms of exactly the
vocabulary skills occurring case-insensitively as substrings of the text, in
vocabulary order, without duplicates; the empty input yields the empty list. -/
theorem extract_skills_spec :
    (∀ resume_text : String,
      extract_skills_keywords resume_text
        = (common_skills.filter
            (fun s => substrB s (pyLower resume_text))).map pyTitle)
    ∧ (∀ resume_text : String, (extract_skills_keywords resume_text).Nodup)
    ∧ extract_skills_keywords "" = [] := by
  refine ⟨extract_skills_eq, fun resume_text => ?_, by decide⟩
  rw [extract_skills_eq]
  have hvocab : (common_skills.map pyTitle).Nodup := by decide
  exact hvocab.sublist ((List.filter_sublist _).map pyTitle)

/-! ### `customize_for_company` (cover_letter_generator.py).
The generation capability is passed in as a function `llm`; the second
component of the result counts how many generation requests were issued. -/

/-- The user message built by `customize_for_company` for the generation
request (whitespace of the Python f-string elided). -/
def customizePrompt (base_cover_letter company_info : String) : String :=
  "CURRENT COVER LETTER:\n" ++ base_cover_letter
    ++ "\n\nCOMPANY INFORMATION:\n" ++ company_info
    ++ "\n\nEnhance the cover letter with this company information:"

/-- Model of `customize_for_company`: an empty (falsy) company brief short-circuits and
returns the input letter; otherwise one generation request is issued and its
raw response returned unmodified. -/
def customize_for_company (llm : String → String)
    (base_cover_letter company_info : String) : String × Nat :=
  if company_info = "" then (base_cover_letter, 0)
  else (llm (customizePrompt base_cover_letter company_info), 1)

/-- Claim C10: with an empty company brief, `customize_for_company` is the
identity on the letter and consults the generation capability zero times. -/
theorem customize_empty_brief_identity (llm : String → String)
    (base_cover_letter : String) :
    customize_for_company llm base_cover_letter "" = (base_cover_letter, 0) := by
  simp [customize_for_company]

/-! ### Lemmas about `stripList` needed for the cover-letter post-conditions -/

theorem dropWhile_append_of_ne_nil {p : α → Bool} {l₁ : List α} (l₂ : List α)
    (h : l₁.dropWhile p ≠ []) :
    (l₁ ++ l₂).dropWhile p = l₁.dropWhile p ++ l₂ := by
  induction l₁ with
  | nil => exact absurd rfl h
  | cons a l ih =>
    by_cases ha : p a = true
    · rw [List.dropWhile_cons_of_pos ha] at h
      rw [List.cons_append, List.dropWhile_cons_of_pos ha,
        List.dropWhile_cons_of_pos ha, ih h]
    · rw [List.cons_append, List.dropWhile_cons_of_neg (by simp [ha]),
        List.dropWhile_cons_of_neg (by simp [ha]), List.cons_append]

theorem dropWhile_append_of_all {p : α → Bool} {l₁ : List α} (l₂ : List α)
    (h : ∀ a ∈ l₁, p a = true) :
    (l₁ ++ l₂).dropWhile p = l₂.dropWhile p := by
  induction l₁ with
  | nil => rfl
  | cons a l ih =>
    rw [List.cons_append, List.dropWhile_cons_of_pos (h a (by simp))]
    exact ih (fun x hx => h x (by simp [hx]))

theorem dropRightWhile_append_of_ne_nil {p : α → Bool} (l₁ : List α)
    {l₂ : List α} (h : dropRightWhile p l₂ ≠ []) :
    dropRightWhile p (l₁ ++ l₂) = l₁ ++ dropRightWhile p l₂ := by
  have h' : l₂.reverse.dropWhile p ≠ [] := by
    intro hc
    apply h
    unfold dropRightWhile
    rw [hc]
    rfl
  unfold dropRightWhile
  rw [List.reverse_append, dropWhile_append_of_ne_nil _ h', List.reverse_append,
    List.reverse_reverse]

theorem dropRightWhile_append_of_all {p : α → Bool} (l₁ : List α)
    {l₂ : List α} (h : ∀ a ∈ l₂, p a = true) :
    dropRightWhile p (l₁ ++ l₂) = dropRightWhile p l₁ := by
  unfold dropRightWhile
  rw [List.reverse_append,
    dropWhile_append_of_all _ (fun a ha => h a (List.mem_reverse.mp ha))]

theorem dropRightWhile_pfx {p : α → Bool} (l : List α) :
    dropRightWhile p l <+: l := by
  have h : l.reverse.dropWhile p <:+ l.reverse := List.dropWhile_suffix p
  have h2 := List.reverse_prefix.mpr h
  rwa [List.reverse_reverse] at h2

theorem mem_takeWhile_ws {p : α → Bool} :
    ∀ {l : List α} {a : α}, a ∈ l.takeWhile p → p a = true := by
  intro l
  induction l with
  | nil => intro a ha; simp [List.takeWhile] at ha
  | cons x xs ih =>
    intro a ha
    by_cases hx : p x = true
    · rw [List.takeWhile_cons_of_pos hx] at ha
      rcases List.mem_cons.mp ha with h | h
      · rwa [h]
      · exact ih h
    · rw [List.takeWhile_cons_of_neg (by simp [hx])] at ha
      simp at ha

theorem strip_decomp (l : List Char) :
    ∃ w₁ w₂ : List Char,
      l = w₁ ++ stripList l ++ w₂
        ∧ (∀ a ∈ w₁, isPyWs a = true) ∧ (∀ a ∈ w₂, isPyWs a = true) := by
  refine ⟨l.takeWhile isPyWs,
    ((l.dropWhile isPyWs).reverse.takeWhile isPyWs).reverse, ?_, ?_, ?_⟩
  · conv_lhs => rw [← List.takeWhile_append_dropWhile (p := isPyWs) (l := l)]
    rw [List.append_assoc]
    congr 1
    conv_lhs =>
      rw [← List.reverse_reverse (l.dropWhile isPyWs),
        ← List.takeWhile_append_dropWhile (p := isPyWs)
          (l := (l.dropWhile isPyWs).reverse)]
    rw [List.reverse_append]
    rfl
  · exact fun a ha => mem_takeWhile_ws ha
  · exact fun a ha => mem_takeWhile_ws (List.mem_reverse.mp ha)

theorem toLower_of_ws {c : Char} (h : isPyWs c = true) : c.toLower = c := by
  simp only [isPyWs, Bool.or_eq_true, beq_iff_eq] at h
  rcases h with ((((h | h) | h) | h) | h) | h <;> subst h <;> decide

theorem map_toLower_of_ws {w : List Char} (h : ∀ a ∈ w, isPyWs a = true) :
    w.map Char.toLower = w := by
  rw [List.map_congr_left (fun a ha => toLower_of_ws (h a ha))]
  exact List.map_id w

theorem ifx_drop_ws_left {p : α → Bool} {c₀ : α} {ct m : List α} :
    ∀ {w : List α}, (∀ a ∈ w, p a = true) → p c₀ = false →
      (c₀ :: ct) <:+: w ++ m → (c₀ :: ct) <:+: m := by
  intro w
  induction w with
  | nil => intro _ _ h; simpa using h
  | cons b bs ih =>
    intro hw hc h
    rw [List.cons_append] at h
    rcases List.infix_cons_iff.mp h with hp | hi
    · exfalso
      rcases hp with ⟨t, ht⟩
      rw [List.cons_append] at ht
      have hb : c₀ = b := (List.cons.injEq _ _ _ _).mp ht |>.1
      have := hw b (by simp)
      rw [← hb, hc] at this
      exact Bool.false_ne_true this
    · exact ih (fun a ha => hw a (by simp [ha])) hc hi

theorem ifx_drop_ws_right {p : α → Bool} {c₁ : α} {cs m w : List α}
    (hw : ∀ a ∈ w, p a = true) (hc : p c₁ = false)
    (h : (cs ++ [c₁]) <:+: m ++ w) : (cs ++ [c₁]) <:+: m := by
  have hr : (c₁ :: cs.reverse) <:+: w.reverse ++ m.reverse := by
    have := List.reverse_infix.mpr h
    rwa [List.reverse_append, List.reverse_append, List.reverse_singleton] at this
  have hr2 : (c₁ :: cs.reverse) <:+: m.reverse :=
    ifx_drop_ws_left (fun a ha => hw a (List.mem_reverse.mp ha)) hc hr
  have := List.reverse_infix.mpr hr2
  rwa [List.reverse_reverse, List.reverse_cons, List.reverse_reverse] at this

/-! ### Cover Letter Composer (cover_letter_generator.py,
`generate_cover_letter` / `_format_cover_letter`). -/

/-- The fixed placeholder header block prepended by `_format_cover_letter`. -/
def headerBlock : String :=
  "[Your Name]\n[Your Address]\n[Your Email]\n[Your Phone Number]\n[Date]\n\n[Hiring Manager\x27s Name]\n[Company Name]\n[Company Address]\n\n"

/-- The fixed closing block appended by `_format_cover_letter`. -/
def closingBlock : String := "\n\nSincerely,\n[Your Name]"

/-- The closing phrases tested case-insensitively by `_format_cover_letter`. -/
def closings : List String := ["sincerely", "best regards", "thank you"]

/-- First step of `_format_cover_letter`: prepend the placeholder header when
the stripped letter starts with neither "[Your Name]" nor "Dear". -/
def addHeader (cover_letter : String) : String :=
  if !(pyStartsWith (pyStrip cover_letter) "[Your Name]")
      && !(pyStartsWith (pyStrip cover_letter) "Dear")
  then headerBlock ++ cover_letter else cover_letter

/-- Second step of `_format_cover_letter`: append the fixed closing when no
closing phrase occurs in the lowercased letter. -/
def addClosing (cover_letter : String) : String :=
  if !(closings.any (fun closing => substrB closing (pyLower cover_letter)))
  then cover_letter ++ closingBlock else cover_letter

/-- Model of `_format_cover_letter`: header fix-up, closing fix-up, final strip. -/
def format_cover_letter (cover_letter : String) : String :=
  pyStrip (addClosing (addHeader cover_letter))

theorem strip_header_append (r : String) :
    pyStartsWith (pyStrip (headerBlock ++ r)) "[Your Name]" = true := by
  rw [pyStartsWith_iff]
  have hdata : (pyStrip (headerBlock ++ r)).data
      = stripList (headerBlock.data ++ r.data) := rfl
  rw [hdata]
  have hH : (headerBlock.data : List Char)
      = "[Your Name]".data ++ "\n[Your Address]\n[Your Email]\n[Your Phone Number]\n[Date]\n\n[Hiring Manager\x27s Name]\n[Company Name]\n[Company Address]\n\n".data := by
    decide
  rw [hH, List.append_assoc]
  set X := "\n[Your Address]\n[Your Email]\n[Your Phone Number]\n[Date]\n\n[Hiring Manager\x27s Name]\n[Company Name]\n[Company Address]\n\n".data ++ r.data with hX
  unfold stripList
  have hT : ("[Your Name]".data : List Char) = '[' :: "Your Name]".data := by decide
  have h1 : ("[Your Name]".data ++ X).dropWhile isPyWs = "[Your Name]".data ++ X := by
    rw [hT, List.cons_append, List.dropWhile_cons_of_neg (by decide)]
  rw [h1]
  by_cases h2 : dropRightWhile isPyWs X = []
  · exfalso
    have h3 : X.reverse.dropWhile isPyWs = [] := by
      have := h2
      unfold dropRightWhile at this
      exact List.reverse_eq_nil_iff.mp this
    have h4 : ∀ a ∈ X.reverse, isPyWs a = true := List.dropWhile_eq_nil_iff.mp h3
    have h5 : '[' ∈ X := by
      rw [hX]
      exact List.mem_append.mpr (Or.inl (by decide))
    have h6 := h4 '[' (List.mem_reverse.mpr h5)
    exact absurd h6 (by decide)
  · rw [dropRightWhile_append_of_ne_nil _ h2]
    exact List.prefix_append _ _

theorem strip_append_keeps_start (s t cb : String) (hne : t.data ≠ [])
    (hcb : dropRightWhile isPyWs cb.data ≠ [])
    (h : pyStartsWith (pyStrip s) t = true) :
    pyStartsWith (pyStrip (s ++ cb)) t = true := by
  rw [pyStartsWith_iff] at h ⊢
  have hsd : (pyStrip s).data = stripList s.data := rfl
  rw [hsd] at h
  have h0 : s.data.dropWhile isPyWs ≠ [] := by
    intro hc
    have hnil : stripList s.data = [] := by
      unfold stripList
      rw [hc]
      rfl
    rw [hnil] at h
    exact hne ( List.prefix_nil.mp h)
  have hgoal : (pyStrip (s ++ cb)).data = stripList (s.data ++ cb.data) := rfl
  rw [hgoal]
  unfold stripList
  rw [dropWhile_append_of_ne_nil _ h0, dropRightWhile_append_of_ne_nil _ hcb]
  have h5 : t.data <+: s.data.dropWhile isPyWs := by
    have hp : stripList s.data <+: s.data.dropWhile isPyWs := dropRightWhile_pfx _
    exact h.trans hp
  exact h5.trans ( List.prefix_append _ _)

theorem closing_after_append (s : String) :
    substrB "sincerely" (pyLower (pyStrip (s ++ closingBlock))) = true := by
  rw [substrB_iff]
  have hd : (pyLower (pyStrip (s ++ closingBlock))).data
      = (stripList (s.data ++ closingBlock.data)).map Char.toLower := rfl
  rw [hd]
  unfold stripList
  by_cases h0 : s.data.dropWhile isPyWs = []
  · have hall : ∀ a ∈ s.data, isPyWs a = true := List.dropWhile_eq_nil_iff.mp h0
    rw [dropWhile_append_of_all _ hall]
    exact ( listIfx_true_iff _ _).mp (by decide)
  · rw [dropWhile_append_of_ne_nil _ h0,
      dropRightWhile_append_of_ne_nil _
        (show dropRightWhile isPyWs closingBlock.data ≠ [] by decide),
      List.map_append]
    have hc : "sincerely".data <:+:
        (dropRightWhile isPyWs closingBlock.data).map Char.toLower :=
      ( listIfx_true_iff _ _).mp (by decide)
    exact hc.trans ( List.IsSuffix.isInfix (List.suffix_append _ _))

theorem closing_in_strip {c : String} (s : String)
    (c₀ : Char) (ct : List Char) (cs : List Char) (c₁ : Char)
    (hc0 : c.data = c₀ :: ct) (hc1 : c.data = cs ++ [c₁])
    (h0 : isPyWs c₀ = false) (h1 : isPyWs c₁ = false)
    (h : substrB c (pyLower s) = true) :
    substrB c (pyLower (pyStrip s)) = true := by
  rw [substrB_iff] at h ⊢
  obtain ⟨w₁, w₂, hdec, hw₁, hw₂⟩ := strip_decomp s.data
  have hlow : (pyLower s).data
      = w₁ ++ (stripList s.data).map Char.toLower ++ w₂ := by
    show s.data.map Char.toLower = _
    conv_lhs => rw [hdec]
    rw [List.map_append, List.map_append, map_toLower_of_ws hw₁,
      map_toLower_of_ws hw₂]
  rw [hlow] at h
  have ht : (pyLower (pyStrip s)).data = (stripList s.data).map Char.toLower := rfl
  rw [ht]
  have h2 : c.data <:+: w₁ ++ (stripList s.data).map Char.toLower := by
    rw [hc1] at h ⊢
    exact ifx_drop_ws_right hw₂ h1 h
  rw [hc0] at h2 ⊢
  exact ifx_drop_ws_left hw₁ h0 h2

theorem dropWhile_head_false {p : α → Bool} :
    ∀ {l : List α} {c : α} {t : List α}, l.dropWhile p = c :: t → p c = false := by
  intro l
  induction l with
  | nil => intro c t h; simp [List.dropWhile] at h
  | cons a as ih =>
    intro c t h
    by_cases ha : p a = true
    · rw [List.dropWhile_cons_of_pos ha] at h
      exact ih h
    · rw [List.dropWhile_cons_of_neg (by simp [ha])] at h
      obtain ⟨rfl, rfl⟩ := (List.cons.injEq _ _ _ _).mp h
      exact Bool.not_eq_true _ |>.mp ha

theorem dropWhile_idem {p : α → Bool} (l : List α) :
    (l.dropWhile p).dropWhile p = l.dropWhile p := by
  cases h : l.dropWhile p with
  | nil => simp
  | cons c t =>
    rw [List.dropWhile_cons_of_neg]
    simp [dropWhile_head_false h]

theorem stripList_idem (l : List Char) :
    stripList (stripList l) = stripList l := by
  cases h : stripList l with
  | nil => rfl
  | cons c t =>
    have hpfx := dropRightWhile_pfx (p := isPyWs) (l.dropWhile isPyWs)
    rw [show dropRightWhile isPyWs (l.dropWhile isPyWs) = stripList l from rfl, h]
      at hpfx
    obtain ⟨u, hu⟩ := hpfx
    have hc : isPyWs c = false := by
      apply dropWhile_head_false (l := l) (t := t ++ u)
      rw [← hu]
      rfl
    unfold stripList
    have h1 : (c :: t).dropWhile isPyWs = c :: t := by
      rw [List.dropWhile_cons_of_neg]
      simp [hc]
    rw [h1]
    have h2 : stripList l
        = ((l.dropWhile isPyWs).reverse.dropWhile isPyWs).reverse := rfl
    rw [h2] at h
    unfold dropRightWhile
    rw [← h, List.reverse_reverse, dropWhile_idem]

theorem pyStrip_idem (s : String) : pyStrip (pyStrip s) = pyStrip s := by
  show (⟨stripList (stripList s.data)⟩ : String) = ⟨stripList s.data⟩
  rw [stripList_idem]

theorem format_cover_letter_post (raw : String) :
    (pyStartsWith (pyStrip (format_cover_letter raw)) "[Your Name]" = true
      ∨ pyStartsWith (pyStrip (format_cover_letter raw)) "Dear" = true)
    ∧ closings.any
        (fun closing => substrB closing (pyLower (format_cover_letter raw)))
      = true := by
  unfold format_cover_letter
  rw [pyStrip_idem]
  set s1 := addHeader raw with hs1def
  have hs1 : pyStartsWith (pyStrip s1) "[Your Name]" = true
      ∨ pyStartsWith (pyStrip s1) "Dear" = true := by
    rw [hs1def]
    unfold addHeader
    by_cases hA : pyStartsWith (pyStrip raw) "[Your Name]" = true
    · rw [if_neg (by simp [hA])]
      left
      exact hA
    · by_cases hB : pyStartsWith (pyStrip raw) "Dear" = true
      · rw [if_neg (by simp [hB])]
        right
        exact hB
      · rw [Bool.not_eq_true] at hA hB
        rw [if_pos (by simp [hA, hB])]
        left
        exact strip_header_append raw
  by_cases hC : closings.any (fun closing => substrB closing (pyLower s1)) = true
  · have heq : addClosing s1 = s1 := by
      unfold addClosing
      rw [if_neg (by simp [hC])]
    rw [heq]
    refine ⟨hs1, ?_⟩
    rcases List.any_eq_true.mp hC with ⟨c, hmem, hsub⟩
    apply List.any_eq_true.mpr
    refine ⟨c, hmem, ?_⟩
    simp only [closings, List.mem_cons, List.not_mem_nil, or_false] at hmem
    rcases hmem with rfl | rfl | rfl
    · exact closing_in_strip s1 's' "incerely".data "sincerel".data 'y'
        (by decide) (by decide) (by decide) (by decide) hsub
    · exact closing_in_strip s1 'b' "est regards".data "best regard".data 's'
        (by decide) (by decide) (by decide) (by decide) hsub
    · exact closing_in_strip s1 't' "hank you".data "thank yo".data 'u'
        (by decide) (by decide) (by decide) (by decide) hsub
  · have heq : addClosing s1 = s1 ++ closingBlock := by
      unfold addClosing
      rw [Bool.not_eq_true] at hC
      rw [if_pos (by simp [hC])]
    rw [heq]
    constructor
    · rcases hs1 with h | h
      · exact Or.inl
          (strip_append_keeps_start s1 "[Your Name]" closingBlock (by decide)
            (by decide) h)
      · exact Or.inr
          (strip_append_keeps_start s1 "Dear" closingBlock (by decide)
            (by decide) h)
    · apply List.any_eq_true.mpr
      exact ⟨"sincerely", by simp [closings], closing_after_append s1⟩

/-- Python `sep.join(...)` for newline. -/
def joinN : List String → String
  | [] => ""
  | [x] => x
  | x :: y :: xs => x ++ "\n" ++ joinN (y :: xs)

/-- The user message of the bullet-selection generation request (surrounding
instruction text elided; its content never influences the post-condition). -/
def bulletSelectPrompt (resume_text job_description : String) : String :=
  "RESUME:\n" ++ resume_text ++ "\n\nJOB DESCRIPTION:\n" ++ job_description
    ++ "\n\nExtract the most relevant bullet points:"

/-- The user message of the cover-letter generation request. -/
def composePrompt (resume_text job_description company_name company_context
    bullets_text : String) : String :=
  "JOB DESCRIPTION:\n" ++ job_description ++ "\n\nCOMPANY: " ++ company_name
    ++ company_context ++ "\n\nCANDIDATE\x27S RELEVANT ACHIEVEMENTS:\n"
    ++ bullets_text ++ "\n\nFULL RESUME CONTEXT:\n" ++ resume_text
    ++ "\n\nWrite a compelling cover letter for this application:"

/-- Model of `generate_cover_letter`: select bullets from one generation response, keep
the first five, issue the compose request, and post-process its raw response
with `_format_cover_letter`. The generation capability is the function `llm`
from request text to response text. -/
def generate_cover_letter (llm : String → String)
    (resume_text job_description company_name company_info : String) : String :=
  let relevant_bullets :=
    extract_resume_bullets (llm (bulletSelectPrompt resume_text job_description))
  let bullets_text := joinN (relevant_bullets.take 5)
  let company_context :=
    if company_info = "" then ""
    else "\n\nCOMPANY RESEARCH:\n" ++ company_info
  format_cover_letter
    (llm (composePrompt resume_text job_description company_name
      company_context bullets_text))

/-- Claim C1: whatever text the generation capability returns, the composed
cover letter starts (after trimming) with "[Your Name]" or "Dear" and contains
at least one of the closing phrases "sincerely", "best regards", "thank you"
compared case-insensitively. -/
theorem generate_cover_letter_post (llm : String → String)
    (resume_text job_description company_name company_info : String) :
    (pyStartsWith
        (pyStrip (generate_cover_letter llm resume_text job_description
          company_name company_info)) "[Your Name]" = true
      ∨ pyStartsWith
          (pyStrip (generate_cover_letter llm resume_text job_description
            company_name company_info)) "Dear" = true)
    ∧ closings.any
        (fun closing =>
          substrB closing
            (pyLower (generate_cover_letter llm resume_text job_description
              company_name company_info)))
      = true := by
  unfold generate_cover_letter
  exact format_cover_letter_post _

/-! ### The CoverLetter invariant and `customize_for_company` (claim C2). -/

/-- The CoverLetter invariant of the specification, as `_format_cover_letter`
establishes it: the trimmed text starts with a recognizable header or
salutation token, and a closing phrase occurs case-insensitively. -/
def coverLetterInvB (s : String) : Bool :=
  (pyStartsWith (pyStrip s) "[Your Name]" || pyStartsWith (pyStrip s) "Dear")
    && closings.any (fun closing => substrB closing (pyLower s))

/-- Claim C2 counterexample: `customize_for_company` returns the raw
generation response without post-processing, so with a response lacking both
header and closing the result violates the CoverLetter invariant. -/
theorem customize_for_company_cx :
    coverLetterInvB
      ((customize_for_company (fun _ => "hello") "junk" "info").fst) = false := by
  decide

/-- Claim C2 (amended): `customize_for_company` returns the generation
response verbatim (the input letter verbatim when the brief is empty), so its
result satisfies the CoverLetter invariant exactly when that returned text
already does: if the response (resp. the letter, for an empty brief)
satisfies the invariant, so does the result. -/
theorem customize_for_company_inv (llm : String → String)
    (letter brief : String)
    (hempty : brief = "" → coverLetterInvB letter = true)
    (hresp : brief ≠ ""
      → coverLetterInvB (llm (customizePrompt letter brief)) = true) :
    coverLetterInvB ((customize_for_company llm letter brief).fst) = true := by
  by_cases h : brief = ""
  · rw [show customize_for_company llm letter brief = (letter, 0) by
      simp [customize_for_company, h]]
    exact hempty h
  · rw [show customize_for_company llm letter brief
        = (llm (customizePrompt letter brief), 1) by
      simp [customize_for_company, h]]
    exact hresp h

/-- Witness for the amended claim C2 at a concrete generation response that
satisfies the invariant. -/
theorem customize_for_company_inv_witness :
    coverLetterInvB
      ((customize_for_company (fun _ => "Dear Team,\nThank you.") "junk"
        "brief").fst) = true :=
  customize_for_company_inv (fun _ => "Dear Team,\nThank you.") "junk" "brief"
    (fun h => absurd h (by decide)) (fun _ => by decide)

/-! ### Document Extractor (resume_parser.py, `extract_text`). -/

/-- The exception kinds arising in `extract_text`: the `ValueError` raised on
an unrecognized extension, a text-decode failure of `.decode("utf-8")`, an
underlying PDF/DOCX library failure, and the generic wrapper `Exception`
raised by the surrounding `try/except`. -/
inductive ExtractErr
  | unsupported (ext : String)
  | decodeErr (msg : String)
  | libErr (msg : String)
  | wrapped (msg : String)
deriving DecidableEq

deriving instance DecidableEq for Except

/-- The `str(e)` text of a modelled exception. -/
def ExtractErr.msg : ExtractErr → String
  | .unsupported ext => "Unsupported file format: " ++ ext
  | .decodeErr m => m
  | .libErr m => m
  | .wrapped m => m

/-- The constructor tag of an exception, used to compare error kinds. -/
def ExtractErr.kind : ExtractErr → Nat
  | .unsupported _ => 0
  | .decodeErr _ => 1
  | .libErr _ => 2
  | .wrapped _ => 3

/-- The kind of the error of a failed extraction, if any. -/
def errKind (r : Except ExtractErr String) : Option Nat :=
  match r with
  | Except.ok _ => none
  | Except.error e => some e.kind

/-- An uploaded file: its name together with the outcome of each reader the
dispatch can invoke (`read().decode("utf-8")`, the PDF page extractor, the
DOCX paragraph extractor). -/
structure PyFile where
  name : String
  txtRead : Except String String
  pdfRead : Except String String
  docxRead : Except String String

/-- Model of `file.name.split(".")[-1].lower()`. -/
def fileExt (name : String) : String :=
  pyLower ⟨((splitOnChar '.' name.data).getLast?).getD []⟩

/-- The dispatch inside the `try` block of `extract_text`. -/
def extract_text_inner (file : PyFile) : Except ExtractErr String :=
  let file_extension := fileExt file.name
  if file_extension = "pdf" then file.pdfRead.mapError ExtractErr.libErr
  else if file_extension = "docx" then file.docxRead.mapError ExtractErr.libErr
  else if file_extension = "txt" then file.txtRead.mapError ExtractErr.decodeErr
  else Except.error (ExtractErr.unsupported file_extension)

/-- Model of `extract_text`: any exception within the dispatch is caught by the
surrounding `except Exception` and re-raised as the generic wrapper with a
fixed message prefix. -/
def extract_text (file : PyFile) : Except ExtractErr String :=
  match extract_text_inner file with
  | Except.ok t => Except.ok t
  | Except.error e =>
      Except.error
        (ExtractErr.wrapped ("Error extracting text from resume: " ++ e.msg))

/-- Claim C3 counterexample: on a `.odt` upload, `extract_text` does not fail
with the distinct unsupported-format kind; it fails with the same generic
wrapper kind produced for a `.txt` decode failure, the unsupported extension
surviving only in the message text. -/
theorem extract_text_unsupported_cx :
    extract_text ⟨"resume.odt", Except.ok "", Except.ok "", Except.ok ""⟩
        ≠ Except.error (ExtractErr.unsupported "odt")
    ∧ extract_text ⟨"resume.odt", Except.ok "", Except.ok "", Except.ok ""⟩
        = Except.error (ExtractErr.wrapped
            "Error extracting text from resume: Unsupported file format: odt")
    ∧ errKind
        (extract_text ⟨"resume.odt", Except.ok "", Except.ok "", Except.ok ""⟩)
      = errKind
          (extract_text
            ⟨"resume.txt", Except.error "invalid utf-8 byte", Except.ok "",
              Except.ok ""⟩) := by
  refine ⟨by decide, by decide, by decide⟩

/-- Claim C3 (amended): for every file whose lowercased extension is outside
{txt, docx, pdf}, `extract` fails and returns no text, but the failure is the
generic wrapper exception — the same kind used for decode and library
failures — whose message embeds "Unsupported file format:" and the
extension. -/
theorem extract_text_unsupported (file : PyFile)
    (h1 : fileExt file.name ≠ "pdf") (h2 : fileExt file.name ≠ "docx")
    (h3 : fileExt file.name ≠ "txt") :
    extract_text file
      = Except.error (ExtractErr.wrapped
          ("Error extracting text from resume: Unsupported file format: "
            ++ fileExt file.name)) := by
  unfold extract_text extract_text_inner
  simp only [if_neg h1, if_neg h2, if_neg h3]
  rfl

/-- Witness for the amended claim C3 at a concrete `.odt` upload. -/
theorem extract_text_unsupported_witness :
    extract_text ⟨"resume.odt", Except.ok "", Except.ok "", Except.ok ""⟩
      = Except.error (ExtractErr.wrapped
          "Error extracting text from resume: Unsupported file format: odt") :=
  (extract_text_unsupported
      ⟨"resume.odt", Except.ok "", Except.ok "", Except.ok ""⟩
      (by decide) (by decide) (by decide)).trans (by decide)

/-! ### Tracking store insert (airtable_tracker.py, `add_job_application`).
Dates are modelled as abstract day numbers: `datetime.now()` is the parameter
`now`, and `+ timedelta(days=7)` is `+ 7`. -/

/-- The `application_data` dictionary: `none` models an absent key. -/
structure AppData where
  company : Option String
  position : Option String
  status : Option String
  applicationDate : Option Nat
  jobUrl : Option String
  notes : Option String
  salaryRange : Option String
  contactPerson : Option String
  followUpDate : Option Nat

/-- The `record_data` dictionary inserted into the tracking store. The
follow-up field is `none` when the code never adds the key. -/
structure RecordData where
  company : String
  position : String
  status : String
  applicationDate : Nat
  jobUrl : String
  notes : String
  salaryRange : String
  contactPerson : String
  followUpDate : Option Nat

/-- Model of `add_job_application`: fill defaults, then add a follow-up date of
`now + 7` whenever the input carries no follow-up key. -/
def add_job_application (now : Nat) (application_data : AppData) : RecordData :=
  { company := application_data.company.getD ""
    position := application_data.position.getD ""
    status := application_data.status.getD "Applied"
    applicationDate := application_data.applicationDate.getD now
    jobUrl := application_data.jobUrl.getD ""
    notes := application_data.notes.getD ""
    salaryRange := application_data.salaryRange.getD ""
    contactPerson := application_data.contactPerson.getD ""
    followUpDate :=
      if application_data.followUpDate.isNone then some (now + 7) else none }

/-- Claim C7 is violated by the code: with Application Date given as day 100
and no Follow-up Date, insertion at current day 200 stores follow-up day 207
(`datetime.now() + 7 days`), not day 107 (Application Date + 7 days) as the
claim — and the code's own comment — require. -/
theorem add_job_application_followup_bug :
    (add_job_application 200
      { company := some "Acme", position := some "Engineer", status := none,
        applicationDate := some 100, jobUrl := none, notes := none,
        salaryRange := none, contactPerson := none,
        followUpDate := none }).followUpDate = some 207
    ∧ (some 207 : Option Nat) ≠ some (100 + 7)
    ∧ ∀ now : Nat, ∀ application_data : AppData,
        application_data.followUpDate = none →
          (add_job_application now application_data).followUpDate
            = some (now + 7) := by
  refine ⟨rfl, by decide, ?_⟩
  intro now application_data h
  simp [add_job_application, h]

/-! ### Company Researcher (company_researcher.py, `research_company`).
The two research helpers catch their own exceptions and return an info
dictionary; they are modelled as functions from the company name to an
`Except`, the error case conservatively covering any exception reaching
`research_company`, whose `try/except` converts it to the disclaimer. -/

/-- The `company_info` dictionary facets (absent keys modelled as empty). -/
structure CompanyInfo where
  basic_info : String
  recent_news : List String
  company_culture : String
  size_and_industry : String
  recent_achievements : List String

/-- Python `s[:n]`. -/
def pyTake (n : Nat) (s : String) : String := ⟨s.data.take n⟩

/-- The `"• {item}\n"` lines of the news/achievements loops. -/
def newsLines : List String → String
  | [] => ""
  | item :: rest => "• " ++ item ++ "\n" ++ newsLines rest

/-- Model of `_format_company_info`: assemble the research brief from the facets that
are present (Python truthiness: non-empty string / non-empty list). -/
def format_company_info (company_name : String) (info : CompanyInfo) : String :=
  let s0 := "Company Research: " ++ company_name ++ "\n\n"
  let s1 := if info.basic_info ≠ ""
    then s0 ++ ("About the Company:\n" ++ pyTake 300 info.basic_info ++ "...\n\n")
    else s0
  let s2 := if info.recent_news ≠ []
    then s1 ++ ("Recent News/Updates:\n" ++ newsLines (info.recent_news.take 3)
      ++ "\n")
    else s1
  let s3 := if info.company_culture ≠ ""
    then s2 ++ ("Company Culture/Values:\n" ++ pyTake 200 info.company_culture
      ++ "...\n\n")
    else s2
  let s4 := if info.size_and_industry ≠ ""
    then s3 ++ ("Industry & Size:\n" ++ info.size_and_industry ++ "\n\n")
    else s3
  let s5 := if info.recent_achievements ≠ []
    then s4 ++ ("Recent Achievements:\n"
      ++ newsLines (info.recent_achievements.take 2))
    else s4
  s5 ++ "\n[Use this information to show genuine interest and knowledge about the company in your cover letter]"

/-- The `try/except` of `research_company`: a successful attempt returns the
formatted brief, any exception is replaced by the fixed disclaimer mentioning
the company name. -/
def research_attempt_result (company_name : String)
    (attempt : Except String String) : String :=
  match attempt with
  | Except.ok s => s
  | Except.error _ =>
      "Limited company information available for " ++ company_name
        ++ ". Consider researching the company manually for better personalization."

/-- Model of `research_company`: with a search credential use the search helper, else
the scraping helper; format the result; any exception reaching this level is
caught and replaced by the disclaimer. -/
def research_company (serpapi_key : Option String)
    (serpOutcome scrapeOutcome : String → Except String CompanyInfo)
    (company_name : String) : String :=
  research_attempt_result company_name
    ((match serpapi_key with
      | some _ => serpOutcome company_name
      | none => scrapeOutcome company_name).map
      (fun info => format_company_info company_name info))

theorem exists_append_step (s0 b : String) (c : Prop) [Decidable c]
    (x : String) (h : ∃ r, b = s0 ++ r) :
    ∃ r, (if c then b ++ x else b) = s0 ++ r := by
  obtain ⟨r, hr⟩ := h
  by_cases hc : c
  · exact ⟨r ++ x, by rw [if_pos hc, hr, String.append_assoc]⟩
  · exact ⟨r, by rw [if_neg hc, hr]⟩

theorem format_company_info_decomp (company_name : String)
    (info : CompanyInfo) :
    ∃ rest : String,
      format_company_info company_name info
        = ("Company Research: " ++ company_name ++ "\n\n") ++ rest := by
  simp only [format_company_info]
  have h0 : ∃ r, ("Company Research: " ++ company_name ++ "\n\n")
      = ("Company Research: " ++ company_name ++ "\n\n") ++ r :=
    ⟨"", by rw [String.append_empty]⟩
  have h1 := exists_append_step _ _ (info.basic_info ≠ "")
    ("About the Company:\n" ++ pyTake 300 info.basic_info ++ "...\n\n") h0
  have h2 := exists_append_step _ _ (info.recent_news ≠ [])
    ("Recent News/Updates:\n" ++ newsLines (info.recent_news.take 3) ++ "\n") h1
  have h3 := exists_append_step _ _ (info.company_culture ≠ "")
    ("Company Culture/Values:\n" ++ pyTake 200 info.company_culture
      ++ "...\n\n") h2
  have h4 := exists_append_step _ _ (info.size_and_industry ≠ "")
    ("Industry & Size:\n" ++ info.size_and_industry ++ "\n\n") h3
  have h5 := exists_append_step _ _ (info.recent_achievements ≠ [])
    ("Recent Achievements:\n" ++ newsLines (info.recent_achievements.take 2)) h4
  obtain ⟨r, hr⟩ := h5
  exact ⟨r ++ "\n[Use this information to show genuine interest and knowledge about the company in your cover letter]",
    by rw [hr, String.append_assoc]⟩

theorem substr_of_sandwich (x made a b : String) (h : made = a ++ x ++ b) :
    substrB x made = true := by
  rw [substrB_iff, h]
  simp only [String.data_append]
  exact List.infix_append _ _ _

theorem research_core (company_name : String)
    (att : Except String CompanyInfo) :
    research_attempt_result company_name
        (att.map (fun info => format_company_info company_name info)) ≠ ""
    ∧ substrB company_name
        (research_attempt_result company_name
          (att.map (fun info => format_company_info company_name info)))
      = true := by
  cases att with
  | ok info =>
    simp only [Except.map, research_attempt_result]
    obtain ⟨rest, hrest⟩ := format_company_info_decomp company_name info
    constructor
    · intro hc
      rw [hrest] at hc
      have hd := congrArg String.data hc
      simp only [String.data_append, List.append_eq_nil] at hd
      exact absurd hd.1.2 (by decide)
    · exact substr_of_sandwich company_name _ "Company Research: "
        ("\n\n" ++ rest) (by rw [hrest, String.append_assoc])
  | error e =>
    simp only [Except.map, research_attempt_result]
    constructor
    · intro hc
      have hd := congrArg String.data hc
      simp only [String.data_append, List.append_eq_nil] at hd
      exact absurd hd.1.1 (by decide)
    · exact substr_of_sandwich company_name _
        "Limited company information available for "
        ". Consider researching the company manually for better personalization."
        rfl

/-- Claim C8: whatever the credential's presence and the outcome of the
underlying search/scraping helpers — including failure of every source —
`research` returns a string (never an exception), that string is non-empty,
and it mentions the company name. -/
theorem research_company_spec (serpapi_key : Option String)
    (serpOutcome scrapeOutcome : String → Except String CompanyInfo)
    (company_name : String) :
    research_company serpapi_key serpOutcome scrapeOutcome company_name ≠ ""
    ∧ substrB company_name
        (research_company serpapi_key serpOutcome scrapeOutcome company_name)
      = true := by
  unfold research_company
  rcases serpapi_key with _ | k
  · exact research_core company_name (scrapeOutcome company_name)
  · exact research_core company_name (serpOutcome company_name)

/-! ### Section Segmenter (resume_parser.py, `extract_key_sections`). -/

/-- The fixed section-key order of the `sections` dictionary literal (which
coincides with the iteration order of `section_keywords`). -/
def sectionNames : List String :=
  ["contact", "summary", "experience", "education", "skills", "projects"]

/-- The `sections` dictionary literal: every key present, initially empty. -/
def sections0 : List (String × String) :=
  [("contact", ""), ("summary", ""), ("experience", ""), ("education", ""),
   ("skills", ""), ("projects", "")]

/-- The per-section keyword lists, in dictionary iteration order. -/
def section_keywords : List (String × List String) :=
  [("contact", ["contact", "phone", "email", "address"]),
   ("summary", ["summary", "objective", "profile", "about"]),
   ("experience", ["experience", "employment", "work history", "professional"]),
   ("education", ["education", "degree", "university", "college", "school"]),
   ("skills", ["skills", "technical", "competencies", "technologies"]),
   ("projects", ["projects", "portfolio", "achievements"])]

/-- Python dict assignment `d[k] = v`, preserving insertion order. -/
def dictSet : List (String × String) → String → String → List (String × String)
  | [], k, v => [(k, v)]
  | (k', v') :: rest, k, v =>
    if k' = k then (k', v) :: rest else (k', v') :: dictSet rest k v

/-- The header test of the segmentation loop: the first section (in fixed
order) one of whose keywords occurs in the lowered-and-stripped line, provided
the stripped line has fewer than 50 characters. -/
def findHeader (line : String) : Option String :=
  let line_lower := pyStrip (pyLower line)
  (section_keywords.find?
    (fun p => p.2.any (fun keyword => substrB keyword line_lower)
      && decide ((pyStrip line).length < 50))).map Prod.fst

/-- The loop state of `extract_key_sections`. -/
structure SegState where
  sections : List (String × String)
  current : Option String
  buffer : List String

/-- Save the accumulated buffer into the current section — a no-op without a
current section or with an empty buffer, as in the code's save steps. -/
def segFlush (st : SegState) : List (String × String) :=
  match st.current with
  | some cur =>
    if st.buffer = [] then st.sections
    else dictSet st.sections cur (joinN st.buffer)
  | none => st.sections

/-- One iteration of the line loop: on a header line, save the previous
section and start the new one; otherwise append the non-blank line to the
buffer of the active section, if any. -/
def segStep (st : SegState) (line : String) : SegState :=
  match findHeader line with
  | some section_found => ⟨segFlush st, some section_found, []⟩
  | none =>
    match st.current with
    | some _ =>
      if pyStrip line = "" then st
      else ⟨st.sections, st.current, st.buffer ++ [line]⟩
    | none => st

/-- Model of `extract_key_sections`: fold the line loop over the split text, then save
the last section. -/
def extract_key_sections (resume_text : String) : List (String × String) :=
  let lines := pySplit '\n' resume_text
  segFlush (lines.foldl segStep ⟨sections0, none, []⟩)

theorem dictSet_keys :
    ∀ (d : List (String × String)) (k v : String),
      k ∈ d.map Prod.fst → (dictSet d k v).map Prod.fst = d.map Prod.fst := by
  intro d
  induction d with
  | nil => intro k v h; simp at h
  | cons p rest ih =>
    intro k v h
    obtain ⟨k', v'⟩ := p
    by_cases hk : k' = k
    · simp [dictSet, hk]
    · have hmem : k ∈ rest.map Prod.fst := by
        simp only [List.map_cons, List.mem_cons] at h
        rcases h with h | h
        · exact absurd h.symm hk
        · exact h
      simp [dictSet, hk, ih _ _ hmem]

theorem segFlush_keys (st : SegState)
    (hkeys : st.sections.map Prod.fst = sectionNames)
    (hcur : ∀ c, st.current = some c → c ∈ sectionNames) :
    (segFlush st).map Prod.fst = sectionNames := by
  unfold segFlush
  cases hc : st.current with
  | none => exact hkeys
  | some cur =>
    show (if st.buffer = [] then st.sections
      else dictSet st.sections cur (joinN st.buffer)).map Prod.fst
        = sectionNames
    by_cases hb : st.buffer = []
    · rw [if_pos hb]
      exact hkeys
    · rw [if_neg hb, dictSet_keys _ _ _ (by rw [hkeys]; exact hcur cur hc)]
      exact hkeys

theorem findHeader_mem {line sec : String}
    (h : findHeader line = some sec) : sec ∈ sectionNames := by
  unfold findHeader at h
  rcases Option.map_eq_some'.mp h with ⟨p, hfind, hfst⟩
  have hp := List.mem_of_find?_eq_some hfind
  have : p.1 ∈ section_keywords.map Prod.fst := List.mem_map_of_mem Prod.fst hp
  rw [hfst] at this
  exact this

theorem segStep_inv {st : SegState} (line : String)
    (hkeys : st.sections.map Prod.fst = sectionNames)
    (hcur : ∀ c, st.current = some c → c ∈ sectionNames) :
    (segStep st line).sections.map Prod.fst = sectionNames
    ∧ ∀ c, (segStep st line).current = some c → c ∈ sectionNames := by
  unfold segStep
  cases hf : findHeader line with
  | some sec =>
    refine ⟨segFlush_keys st hkeys hcur, ?_⟩
    intro c hc
    have : sec = c := by
      simpa using hc
    rw [← this]
    exact findHeader_mem hf
  | none =>
    cases hcu : st.current with
    | some cur =>
      show ((if pyStrip line = "" then st
          else (⟨st.sections, some cur, st.buffer ++ [line]⟩ :
            SegState)).sections.map Prod.fst = sectionNames)
        ∧ ∀ c, (if pyStrip line = "" then st
            else (⟨st.sections, some cur, st.buffer ++ [line]⟩ :
              SegState)).current = some c → c ∈ sectionNames
      by_cases hb : pyStrip line = ""
      · rw [if_pos hb]
        exact ⟨hkeys, hcur⟩
      · rw [if_neg hb]
        exact ⟨hkeys, fun c hc => hcur c (hcu.trans hc)⟩
    | none => exact ⟨hkeys, hcur⟩

theorem segFoldl_inv (lines : List String) :
    ∀ st : SegState,
      st.sections.map Prod.fst = sectionNames →
      (∀ c, st.current = some c → c ∈ sectionNames) →
      ((lines.foldl segStep st).sections.map Prod.fst = sectionNames
        ∧ ∀ c, (lines.foldl segStep st).current = some c
            → c ∈ sectionNames) := by
  induction lines with
  | nil => intro st h1 h2; exact ⟨h1, h2⟩
  | cons x xs ih =>
    intro st h1 h2
    obtain ⟨h1', h2'⟩ := segStep_inv x h1 h2
    exact ih _ h1' h2'

theorem segStep_id {st : SegState} {line : String}
    (hf : findHeader line = none) (hcur : st.current = none) :
    segStep st line = st := by
  simp [segStep, hf, hcur]

theorem segFoldl_id (lines : List String)
    (h : ∀ line ∈ lines, findHeader line = none) :
    lines.foldl segStep ⟨sections0, none, []⟩ = ⟨sections0, none, []⟩ := by
  induction lines with
  | nil => rfl
  | cons x xs ih =>
    rw [List.foldl_cons, segStep_id (h x (by simp)) rfl]
    exact ih (fun l hl => h l (by simp [hl]))

/-- Claim C4: `segment` always returns a mapping whose keys are exactly the
six fixed section keys, in order, whatever the input; and when no line of the
input is accepted as a section header, every section value is the empty
string. -/
theorem extract_key_sections_spec (resume_text : String) :
    (extract_key_sections resume_text).map Prod.fst
      = ["contact", "summary", "experience", "education", "skills", "projects"]
    ∧ ((∀ line ∈ pySplit '\n' resume_text, findHeader line = none)
      → ∀ kv ∈ extract_key_sections resume_text, kv.2 = "") := by
  constructor
  · obtain ⟨h1, h2⟩ := segFoldl_inv (pySplit '\n' resume_text)
      ⟨sections0, none, []⟩ (by decide) (fun c hc => by cases hc)
    exact segFlush_keys _ h1 h2
  · intro hno kv hmem
    simp only [extract_key_sections] at hmem
    rw [segFoldl_id _ hno] at hmem
    have hred : segFlush ⟨sections0, none, []⟩ = sections0 := rfl
    rw [hred] at hmem
    simp only [sections0, List.mem_cons, List.not_mem_nil, or_false] at hmem
    rcases hmem with rfl | rfl | rfl | rfl | rfl | rfl <;> rfl

/-- Witness for claim C4 at a concrete header-free input. -/
theorem extract_key_sections_spec_witness :
    (∀ line ∈ pySplit '\n' "hello\nworld", findHeader line = none)
    ∧ ∀ kv ∈ extract_key_sections "hello\nworld", kv.2 = "" := by
  have hno : ∀ line ∈ pySplit '\n' "hello\nworld", findHeader line = none := by
    decide
  exact ⟨hno, (extract_key_sections_spec "hello\nworld").2 hno⟩

/-- Claim C9: on the two-line input "Experience" / "Built a thing",
segmentation places "Built a thing" under the experience key and leaves the
other five keys empty. -/
theorem extract_key_sections_example :
    extract_key_sections "Experience\nBuilt a thing"
      = [("contact", ""), ("summary", ""), ("experience", "Built a thing"),
         ("education", ""), ("skills", ""), ("projects", "")] := by
  decide
